import Mathlib

/-!
Verification of the MemoryPlayController client library
(`lib_memory_play_client.hpp`, `lib_memory_play_controller.cpp`,
`lib_wav.cpp`).  The C++ code is shallowly embedded: bytes are `Nat`
values below 256, machine words are `Nat` with explicit `% 2^w`
truncation, buffers are `List Nat`, and the stateful classes become
explicit state-passing functions.
-/

namespace MPC

/-! ## Frame codec (`lib_memory_play_client.hpp`, struct Frame / PayloadHeader) -/

/-- `Frame::write3Byte`: big-endian 3-byte serialisation (each byte `& 0xFF`). -/
def write3Byte (v : Nat) : List Nat :=
  [v / 2 ^ 16 % 256, v / 2 ^ 8 % 256, v % 256]

/-- `Frame::write4Byte`: big-endian 4-byte serialisation. -/
def write4Byte (v : Nat) : List Nat :=
  [v / 2 ^ 24 % 256, v / 2 ^ 16 % 256, v / 2 ^ 8 % 256, v % 256]

/-- `Frame::read3Byte`: big-endian 3-byte read from the front of a buffer. -/
def read3Byte (d : List Nat) : Nat :=
  d.getD 0 0 * 2 ^ 16 + d.getD 1 0 * 2 ^ 8 + d.getD 2 0

/-- Sub-header size chosen by the payload kind: `sizeof(HeadersHeader) = 6`
for kind 1 (Command), `sizeof(DataHeader) = 1` for kinds 0 (Data) and 2 (Tag). -/
def subHeaderSize (k : Nat) : Nat :=
  if k = 1 then 6 else 1

/-- The sub-header bytes as initialised by the `SendMessageData` /
`SendMessageFrames` constructors: all pad/dependency/weight fields zero. -/
def subHeaderBytes (k : Nat) : List Nat :=
  if k = 1 then [0, 0, 0, 0, 0, 0] else [0]

/-- Wire image of a `SendMessage` of kind `k` carrying `body` after the
sub-header: the 9-byte `PayloadHeader` (`length:u24 | type:u8 | flags:u8 |
identifier:u32`, flags and identifier zero) followed by the sub-header and
the body.  `setLength` stores `subHeaderSize k + body.length` truncated to
24 bits by `write3Byte`. -/
def encodeMessage (k : Nat) (body : List Nat) : List Nat :=
  write3Byte (subHeaderSize k + body.length) ++ [k % 256, 0] ++ write4Byte 0 ++
    subHeaderBytes k ++ body

/-- `ReceiveMessage::checkFrame`: returns `some (type, frameLength)` when a
whole frame is available (the `true` branch together with the `type` and
`frameLength` members it sets), `none` when the function returns `false`. -/
def checkFrame (buf : List Nat) : Option (Nat × Nat) :=
  if buf.length < 9 then none
  else if buf.length < read3Byte buf + 9 then none
  else if buf.getD 3 0 = 0 ∨ buf.getD 3 0 = 2 then some (buf.getD 3 0, read3Byte buf)
  else if buf.getD 3 0 = 1 then
    if buf.length < 9 + 6 then none else some (buf.getD 3 0, read3Byte buf)
  else none

/-- `ReceiveMessage::getFramePayload`: the `frameLength` bytes after the
9-byte payload header. -/
def framePayload (buf : List Nat) (frameLength : Nat) : List Nat :=
  (buf.drop 9).take frameLength

/-- `ReceiveMessage::next`: erase `frameLength + sizeof(PayloadHeader)` bytes
from the front of the buffer. -/
def nextBuffer (buf : List Nat) (frameLength : Nat) : List Nat :=
  buf.drop (frameLength + 9)

lemma encodeMessage_eq (k : Nat) (body : List Nat) :
    encodeMessage k body =
      write3Byte (subHeaderSize k + body.length) ++ [k % 256, 0, 0, 0, 0, 0] ++
        (subHeaderBytes k ++ body) := by
  simp [encodeMessage, write4Byte]

lemma length_write3Byte (v : Nat) : (write3Byte v).length = 3 := by
  simp [write3Byte]

lemma length_subHeaderBytes (k : Nat) :
    (subHeaderBytes k).length = subHeaderSize k := by
  by_cases h : k = 1 <;> simp [subHeaderBytes, subHeaderSize, h]

lemma read3Byte_write3Byte (v : Nat) (rest : List Nat) (h : v < 2 ^ 24) :
    read3Byte (write3Byte v ++ rest) = v := by
  simp only [write3Byte, read3Byte, List.cons_append, List.getD_cons_zero,
    List.getD_cons_succ]
  omega

lemma encodeMessage_length (k : Nat) (body : List Nat) :
    (encodeMessage k body).length = 9 + (subHeaderBytes k).length + body.length := by
  simp [encodeMessage, write3Byte, write4Byte]
  omega

lemma checkFrame_success (buf : List Nat) (k L : Nat)
    (h9 : ¬ buf.length < 9) (hread : read3Byte buf = L)
    (hL : ¬ buf.length < L + 9) (hget : buf.getD 3 0 = k)
    (hk : k = 0 ∨ k = 1 ∨ k = 2) (h15 : k = 1 → ¬ buf.length < 9 + 6) :
    checkFrame buf = some (k, L) := by
  rw [checkFrame, hread, hget]
  rcases hk with rfl | rfl | rfl
  · simp [h9, hL]
  · simp [h9, hL, h15 rfl]
  · simp [h9, hL]

/-- C1 (amended): for every payload kind `k ∈ {0,1,2}` and every body `b`
whose encoded length `subHeaderSize k + len b` fits the 24-bit length
field, placing `encode k b` followed by any trailing bytes in a receive
buffer makes `checkFrame` succeed with type `k` and frame length
`subHeaderSize k + len b`, `getFramePayload` returns the sub-header
followed by `b`, and `next` removes exactly the encoded byte count,
leaving the trailing bytes. -/
theorem frame_roundtrip (k : Nat) (hk : k = 0 ∨ k = 1 ∨ k = 2)
    (body extra : List Nat)
    (hlen : subHeaderSize k + body.length < 2 ^ 24) :
    checkFrame (encodeMessage k body ++ extra) =
      some (k, subHeaderSize k + body.length) ∧
    framePayload (encodeMessage k body ++ extra)
      (subHeaderSize k + body.length) = subHeaderBytes k ++ body ∧
    nextBuffer (encodeMessage k body ++ extra)
      (subHeaderSize k + body.length) = extra := by
  have hsub : (subHeaderBytes k).length = subHeaderSize k := length_subHeaderBytes k
  have hk256 : k % 256 = k := by rcases hk with rfl | rfl | rfl <;> rfl
  have hbuf : encodeMessage k body ++ extra =
      write3Byte (subHeaderSize k + body.length) ++
        ([k % 256, 0, 0, 0, 0, 0] ++ ((subHeaderBytes k ++ body) ++ extra)) := by
    rw [encodeMessage_eq]; simp
  have hlenEq : (encodeMessage k body ++ extra).length =
      9 + (subHeaderSize k + body.length) + extra.length := by
    rw [List.length_append, encodeMessage_length, hsub]; omega
  have hread : read3Byte (encodeMessage k body ++ extra) =
      subHeaderSize k + body.length := by
    rw [hbuf]; exact read3Byte_write3Byte _ _ hlen
  have hget : (encodeMessage k body ++ extra).getD 3 0 = k := by
    rw [hbuf]
    simp [write3Byte, hk256]
  have hassoc : encodeMessage k body ++ extra =
      (write3Byte (subHeaderSize k + body.length) ++ [k % 256, 0, 0, 0, 0, 0]) ++
        ((subHeaderBytes k ++ body) ++ extra) := by
    rw [hbuf]; simp
  refine ⟨?_, ?_, ?_⟩
  · refine checkFrame_success _ _ _ ?_ hread ?_ hget hk ?_
    · rw [hlenEq]; omega
    · rw [hlenEq]; omega
    · intro h1
      subst h1
      have h6 : subHeaderSize 1 = 6 := rfl
      omega
  · have h9len : ((write3Byte (subHeaderSize k + body.length) ++
        [k % 256, 0, 0, 0, 0, 0]) : List Nat).length = 9 := by
      simp [write3Byte]
    have hLlen : subHeaderSize k + body.length = (subHeaderBytes k ++ body).length := by
      rw [List.length_append, hsub]
    rw [framePayload, hassoc, ← h9len, List.drop_left, hLlen, List.take_left]
  · have hmsg : (encodeMessage k body).length = subHeaderSize k + body.length + 9 := by
      rw [encodeMessage_length, hsub]; omega
    rw [nextBuffer, ← hmsg, List.drop_left]

/-- C1 witness: a concrete kind-1 frame carrying `"Play=\r\n"` (13 payload
bytes) round-trips. -/
theorem frame_roundtrip_witness :
    checkFrame (encodeMessage 1 [80, 108, 97, 121, 61, 13, 10] ++ [7, 7]) =
      some (1, 13) ∧
    framePayload (encodeMessage 1 [80, 108, 97, 121, 61, 13, 10] ++ [7, 7]) 13 =
      [0, 0, 0, 0, 0, 0] ++ [80, 108, 97, 121, 61, 13, 10] ∧
    nextBuffer (encodeMessage 1 [80, 108, 97, 121, 61, 13, 10] ++ [7, 7]) 13 =
      [7, 7] := by
  have h := frame_roundtrip 1 (Or.inr (Or.inl rfl)) [80, 108, 97, 121, 61, 13, 10]
    [7, 7] (by norm_num [subHeaderSize])
  simpa [subHeaderSize, subHeaderBytes] using h

/-- C1 counterexample: for kind 0 and a body of `2^24 - 1` bytes the 24-bit
length field wraps to 0, so `checkFrame` succeeds with frame length 0, the
frame payload is not the sub-header followed by the body, and `next` does
not remove the whole encoded message. -/
theorem frame_roundtrip_cex :
    checkFrame (encodeMessage 0 (List.replicate (2 ^ 24 - 1) 0)) = some (0, 0) ∧
    framePayload (encodeMessage 0 (List.replicate (2 ^ 24 - 1) 0)) 0 ≠
      subHeaderBytes 0 ++ List.replicate (2 ^ 24 - 1) 0 ∧
    nextBuffer (encodeMessage 0 (List.replicate (2 ^ 24 - 1) 0)) 0 ≠ [] := by
  have key : ∀ b : List Nat, b.length = 2 ^ 24 - 1 →
      checkFrame (encodeMessage 0 b) = some (0, 0) ∧
      framePayload (encodeMessage 0 b) 0 ≠ subHeaderBytes 0 ++ b ∧
      nextBuffer (encodeMessage 0 b) 0 ≠ [] := by
    intro b hb
    have henc : encodeMessage 0 b = 0 :: 0 :: 0 :: 0 :: 0 :: 0 :: 0 :: 0 :: 0 :: 0 :: b := by
      rw [encodeMessage_eq, hb]
      norm_num [write3Byte, subHeaderSize, subHeaderBytes]
    have hlen : (encodeMessage 0 b).length = 10 + (2 ^ 24 - 1) := by
      rw [henc]
      simp [hb]
    refine ⟨?_, ?_, ?_⟩
    · have hread : read3Byte (encodeMessage 0 b) = 0 := by
        rw [henc]; simp [read3Byte]
      have hget : (encodeMessage 0 b).getD 3 0 = 0 := by
        rw [henc]; simp
      rw [checkFrame, hread, hget]
      have h1 : ¬ (encodeMessage 0 b).length < 9 := by rw [hlen]; norm_num
      have h2 : ¬ (encodeMessage 0 b).length < 0 + 9 := by rw [hlen]; norm_num
      simp [h1, h2]
    · rw [framePayload, subHeaderBytes]
      simp
    · rw [nextBuffer, henc]
      simp
  exact key _ (List.length_replicate _ _)

/-! ## Header-line parsing (`lib_memory_play_client.hpp`, ReceiveMessageFrames) -/

/-- Loop body of the `ReceiveMessageFrames` constructor: walk the bytes after
the 6-byte sub-header with a `state` flag (`false` = parsing key, `true` =
parsing value), flushing `(key, value)` on `'\r'` (13) or `'\n'` (10) and at
the end when the key is non-empty. -/
def framesLoop : List Nat → Bool → List Nat → List Nat →
    List (List Nat × List Nat) → List (List Nat × List Nat)
  | [], _, key, value, acc =>
    if key ≠ [] then acc ++ [(key, value)] else acc
  | c :: cs, state, key, value, acc =>
    if c = 13 ∨ c = 10 then
      framesLoop cs false [] [] (if key ≠ [] then acc ++ [(key, value)] else acc)
    else if state then framesLoop cs state key (value ++ [c]) acc
    else if c = 61 then framesLoop cs true key value acc
    else framesLoop cs state (key ++ [c]) value acc

/-- `ReceiveMessageFrames(data)`: skip `sizeof(HeadersHeader) = 6` bytes and
run the parsing loop with empty initial state. -/
def receiveMessageFrames (data : List Nat) : List (List Nat × List Nat) :=
  framesLoop (data.drop 6) false [] [] []

/-- Modelled from the spec's words for comparison with
`receiveMessageFrames`: split the body after the 6-byte sub-header into
lines at every `'\r'` or `'\n'` byte (each terminator consumed). -/
def splitLines : List Nat → List (List Nat)
  | [] => [[]]
  | c :: cs =>
    if c = 13 ∨ c = 10 then [] :: splitLines cs
    else
      match splitLines cs with
      | [] => [[c]]
      | l :: ls => (c :: l) :: ls

/-- Modelled from the spec's words: within a line the characters before the
first `'='` form the key and all characters after it form the value. -/
def parseLine (l : List Nat) : List Nat × List Nat :=
  let key := l.takeWhile (fun c => c ≠ 61)
  (key, l.drop (key.length + 1))

/-- Modelled from the spec's words: the pairs of all lines, in input order,
lines with empty keys discarded (which also drops the trailing unterminated
line exactly when its key is empty). -/
def specHeaderPairs (data : List Nat) : List (List Nat × List Nat) :=
  ((splitLines (data.drop 6)).map parseLine).filter (fun p => p.1 ≠ [])

/-- Finishing the line currently being scanned by `framesLoop` from state
`(state, key, value)` when the rest of the line is `l`. -/
def finishLine (state : Bool) (key value l : List Nat) : List Nat × List Nat :=
  if state then (key, value ++ l)
  else
    let k2 := l.takeWhile (fun c => c ≠ 61)
    (key ++ k2, value ++ l.drop (k2.length + 1))

lemma splitLines_ne_nil (cs : List Nat) : splitLines cs ≠ [] := by
  cases cs with
  | nil => simp [splitLines]
  | cons c cs =>
    rw [splitLines]
    split
    · simp
    · rcases h : splitLines cs with _ | ⟨l, ls⟩ <;> simp

/-- The emitted pair of a line, or nothing when its key is empty. -/
def emitPair (p : List Nat × List Nat) : List (List Nat × List Nat) :=
  if p.1 ≠ [] then [p] else []

lemma finishLine_nil (state : Bool) (key value : List Nat) :
    finishLine state key value [] = (key, value) := by
  cases state <;> simp [finishLine]

lemma finishLine_true (key value l : List Nat) (c : Nat) :
    finishLine true key (value ++ [c]) l = finishLine true key value (c :: l) := by
  simp [finishLine]

lemma finishLine_sep (key value l : List Nat) :
    finishLine true key value l = finishLine false key value (61 :: l) := by
  simp [finishLine, List.takeWhile]

lemma finishLine_key (key value l : List Nat) (c : Nat) (hc : c ≠ 61) :
    finishLine false (key ++ [c]) value l = finishLine false key value (c :: l) := by
  simp [finishLine, List.takeWhile, hc]

lemma finishLine_start (l : List Nat) : finishLine false [] [] l = parseLine l := by
  simp [finishLine, parseLine]

lemma filter_emitPair (l : List Nat) (ls : List (List Nat)) :
    ((l :: ls).map parseLine).filter (fun p => p.1 ≠ []) =
      emitPair (parseLine l) ++ (ls.map parseLine).filter (fun p => p.1 ≠ []) := by
  rw [List.map_cons, List.filter_cons, emitPair]
  by_cases hk : (parseLine l).1 = [] <;> simp [hk]

lemma framesLoop_spec (cs : List Nat) : ∀ (state : Bool) (key value : List Nat)
    (acc : List (List Nat × List Nat)) (l : List Nat) (ls : List (List Nat)),
    splitLines cs = l :: ls →
    framesLoop cs state key value acc =
      acc ++ (emitPair (finishLine state key value l) ++
        ((ls.map parseLine).filter (fun p => p.1 ≠ []))) := by
  induction cs with
  | nil =>
    intro state key value acc l ls h
    rw [splitLines] at h
    cases h
    rw [framesLoop, finishLine_nil, emitPair]
    by_cases hk : key = [] <;> simp [hk]
  | cons c cs ih =>
    intro state key value acc l ls h
    rw [splitLines] at h
    by_cases hterm : c = 13 ∨ c = 10
    · rw [if_pos hterm] at h
      rcases h' : splitLines cs with _ | ⟨l', ls'⟩
      · exact absurd h' (splitLines_ne_nil cs)
      · rw [h'] at h
        cases h
        rw [framesLoop, if_pos hterm, ih false [] [] _ _ _ h', finishLine_nil,
          finishLine_start, filter_emitPair]
        by_cases hk : key = [] <;> simp [emitPair, hk]
    · rw [if_neg hterm] at h
      rcases h' : splitLines cs with _ | ⟨l', ls'⟩
      · exact absurd h' (splitLines_ne_nil cs)
      · rw [h'] at h
        cases h
        cases state with
        | true =>
          rw [framesLoop, if_neg hterm, if_pos rfl, ih true key (value ++ [c]) _ _ _ h',
            finishLine_true]
        | false =>
          by_cases heq : c = 61
          · subst heq
            rw [framesLoop, if_neg hterm]
            rw [if_neg (by simp), if_pos rfl, ih true key value _ _ _ h', finishLine_sep]
          · rw [framesLoop, if_neg hterm]
            rw [if_neg (by simp), if_neg heq, ih false (key ++ [c]) value _ _ _ h',
              finishLine_key _ _ _ _ heq]

/-- C6: the key/value parser of kind-1 frame bodies equals its
specification: skip the 6-byte sub-header, split the rest into lines at
every `'\r'` or `'\n'`, take the first `'='` of a line as the key/value
separator (later `'='` belong to the value), drop lines with empty keys
(in particular the trailing unterminated line is kept exactly when its key
is non-empty), and keep pair order and duplicates. -/
theorem receiveMessageFrames_spec (data : List Nat) :
    receiveMessageFrames data = specHeaderPairs data := by
  rcases h : splitLines (data.drop 6) with _ | ⟨l, ls⟩
  · exact absurd h (splitLines_ne_nil _)
  · rw [receiveMessageFrames, specHeaderPairs, framesLoop_spec _ _ _ _ _ _ _ h, h,
      finishLine_start, filter_emitPair]
    simp

/-! ## DSD reassembly (`lib_wav.cpp`, WAV::ReadRest) -/

/-- `memset(rest_, muteByte, ...)` seen through one `uint64_t` register:
the mute byte repeated eight times. -/
def muteFill64 (mute : Nat) : Nat :=
  mute % 256 * 0x0101010101010101

/-- One 32-bit word of a buffer filled with the mute byte
(`buffer.fill(format_.getMuteByte())` seen through `get_32()`). -/
def muteWord32 (mute : Nat) : Nat :=
  mute % 256 * 0x01010101

/-- `WAV::ReadRest::SWAP_BITS_TABLE[b]`: the 8-bit bit reversal of `b`. -/
def swapBits (b : Nat) : Nat :=
  (List.range 8).foldl (fun acc i => acc + b / 2 ^ i % 2 * 2 ^ (7 - i)) 0

/-- State of a `WAV::ReadRest`: one 64-bit shift register per channel
(`rest_[c]`, the list length is `channel_count_`) and the shared
`bit_count_`. -/
structure ReadRest where
  rest : List Nat
  bitCount : Nat
  deriving Repr, DecidableEq

/-- The `ReadRest` constructor: `bit_count_ = 0` and every register filled
with the mute byte. -/
def rrNew (channels mute : Nat) : ReadRest :=
  ⟨List.replicate channels (muteFill64 mute), 0⟩

/-- `WAV::ReadRest::push8(input, bits)` (and via delegation
`push8(input)` for `bits = 8`): for each channel
`rest[c] = (rest[c] << bits) | (input[c] & ((1 << bits) - 1))` in 64-bit
arithmetic, `bit_count += bits`.  Inputs are `uint8_t`, hence the `% 256`. -/
def rrPush8 (bits : Nat) (input : List Nat) (s : ReadRest) : ReadRest :=
  { rest := (List.range s.rest.length).map (fun c =>
      Nat.lor (s.rest.getD c 0 * 2 ^ bits % 2 ^ 64)
        (Nat.land (input.getD c 0 % 256) (2 ^ bits - 1))),
    bitCount := s.bitCount + bits }

/-- `WAV::ReadRest::push8_msb`. -/
def rrPushMsb (input : List Nat) (bits : Nat) (s : ReadRest) : ReadRest :=
  rrPush8 bits input s

/-- `WAV::ReadRest::push8_lsb`: reverse each input byte through
`SWAP_BITS_TABLE`, then push as for MSB. -/
def rrPushLsb (input : List Nat) (bits : Nat) (s : ReadRest) : ReadRest :=
  rrPush8 bits (input.map swapBits) s

/-- `WAV::ReadRest::full`: `none` when `bit_count < 32`; otherwise
`bit_count -= 32` and one truncated-to-32-bit word per channel,
`output[c] = rest[c] >> bit_count` with the already decremented count. -/
def rrFull (s : ReadRest) : Option (List Nat × ReadRest) :=
  if s.bitCount < 32 then none
  else some (s.rest.map (fun r => r / 2 ^ (s.bitCount - 32) % 2 ^ 32),
    ⟨s.rest, s.bitCount - 32⟩)

/-- `WAV::ReadRest::final`: empty buffer when `bit_count == 0`; otherwise
one word per channel, first filled with the mute byte, then
`word &= (32 - bit_count) - 1` and `word |= rest << (32 - bit_count)`
(truncated to 32 bits).  The embedding covers the drained states
`bit_count ≤ 31` in which the C `int` arithmetic is non-negative. -/
def rrFinal (s : ReadRest) (mute : Nat) : List Nat :=
  if s.bitCount = 0 then []
  else s.rest.map (fun r =>
    Nat.lor (Nat.land (muteWord32 mute) (32 - s.bitCount - 1))
      (r * 2 ^ (32 - s.bitCount) % 2 ^ 32))

/-- Modelled from the spec: the finalization word the spec describes, with
the low `32 - bit_count` bits equal to the mute fill pattern (mask
`(1 << (32 - bit_count)) - 1`) and the residual bits in the high end. -/
def specFinalWords (s : ReadRest) (mute : Nat) : List Nat :=
  if s.bitCount = 0 then []
  else s.rest.map (fun r =>
    Nat.lor (Nat.land (muteWord32 mute) (2 ^ (32 - s.bitCount) - 1))
      (r * 2 ^ (32 - s.bitCount) % 2 ^ 32))

/-- One `push8_msb`/`push8_lsb` call as issued by the `readDSF`/`readDFF`
read loops. -/
structure PushOp where
  lsb : Bool
  bytes : List Nat
  bits : Nat
  deriving Repr

/-- One iteration of the read loops: push one byte (or partial byte) per
channel, then offer `full` its emission opportunity. -/
def rrStep (s : ReadRest) (op : PushOp) : List (List Nat) × ReadRest :=
  let s1 := if op.lsb then rrPushLsb op.bytes op.bits s else rrPushMsb op.bytes op.bits s
  match rrFull s1 with
  | none => ([], s1)
  | some (w, s2) => ([w], s2)

/-- A sequence of pushes, each followed by its emission opportunity. -/
def rrRun (s : ReadRest) : List PushOp → List (List Nat) × ReadRest
  | [] => ([], s)
  | op :: ops =>
    let p := rrStep s op
    let q := rrRun p.2 ops
    (p.1 ++ q.1, q.2)

lemma rrPush8_rest_length (bits : Nat) (input : List Nat) (s : ReadRest) :
    (rrPush8 bits input s).rest.length = s.rest.length := by
  simp [rrPush8]

lemma rrStep_props (s : ReadRest) (op : PushOp) (hbc : s.bitCount < 32)
    (hbits : op.bits ≤ 8) :
    ((rrStep s op).1.length = (s.bitCount + op.bits) / 32 ∧
      (rrStep s op).2.bitCount = (s.bitCount + op.bits) % 32) ∧
    (rrStep s op).2.rest.length = s.rest.length ∧
    ∀ g ∈ (rrStep s op).1, g.length = s.rest.length := by
  have hpush : ∀ input, (if op.lsb then rrPushLsb input op.bits s
      else rrPushMsb input op.bits s) =
      rrPush8 op.bits (if op.lsb then input.map swapBits else input) s := by
    intro input
    by_cases h : op.lsb <;> simp [h, rrPushLsb, rrPushMsb]
  rw [rrStep, hpush]
  set s1 := rrPush8 op.bits (if op.lsb then op.bytes.map swapBits else op.bytes) s with hs1
  have hbc1 : s1.bitCount = s.bitCount + op.bits := rfl
  have hlen1 : s1.rest.length = s.rest.length := rrPush8_rest_length _ _ _
  by_cases hlt : s1.bitCount < 32
  · rw [rrFull, if_pos hlt]
    refine ⟨⟨?_, ?_⟩, ?_, ?_⟩ <;> simp [hbc1, hlen1] at hlt ⊢ <;> omega
  · rw [rrFull, if_neg hlt]
    rw [hbc1] at hlt
    refine ⟨⟨?_, ?_⟩, ?_, ?_⟩
    · simp [hbc1]
      omega
    · simp [hbc1]
      omega
    · simpa using hlen1
    · intro g hg
      simp at hg
      simp [hg, hlen1]

lemma rrRun_props (ops : List PushOp) : ∀ s : ReadRest, s.bitCount < 32 →
    (∀ op ∈ ops, op.bits ≤ 8) →
    (rrRun s ops).1.length = (s.bitCount + (ops.map (fun op => op.bits)).sum) / 32 ∧
    (rrRun s ops).2.bitCount = (s.bitCount + (ops.map (fun op => op.bits)).sum) % 32 ∧
    (rrRun s ops).2.rest.length = s.rest.length ∧
    ∀ g ∈ (rrRun s ops).1, g.length = s.rest.length := by
  induction ops with
  | nil =>
    intro s hbc _
    simp [rrRun]
    omega
  | cons op ops ih =>
    intro s hbc hbits
    obtain ⟨⟨hcount, hbc1⟩, hlen1, hg1⟩ :=
      rrStep_props s op hbc (hbits op (by simp))
    have hbc1' : (rrStep s op).2.bitCount < 32 := by
      rw [hbc1]; exact Nat.mod_lt _ (by omega)
    obtain ⟨ihc, ihbc, ihlen, ihg⟩ := ih (rrStep s op).2 hbc1'
      (fun o ho => hbits o (by simp [ho]))
    rw [rrRun]
    refine ⟨?_, ?_, ?_, ?_⟩
    · simp only [List.length_append, hcount, ihc, hbc1, List.map_cons, List.sum_cons]
      omega
    · simp only [ihbc, hbc1, List.map_cons, List.sum_cons]
      omega
    · simp only [ihlen, hlen1]
    · intro g hg
      simp only [List.mem_append] at hg
      rcases hg with hg | hg
      · exact hg1 g hg
      · rw [ihg g hg, hlen1]

/-- C3: over any sequence of `push8_msb`/`push8_lsb` calls of at most
8 bits each, each followed by its `full` emission opportunity as in the
`readDSF`/`readDFF` loops, the total number of 32-bit words emitted per
channel after `final` is `ceil(B / 32)` for `B` total pushed bits per
channel; every emission produces exactly one word per channel equal to
`(rest[c] >> (bit_count - 32)) & 0xFFFFFFFF` while decreasing `bit_count`
by exactly 32, and `bit_count < 32` holds between emission
opportunities. -/
theorem dsd_word_count (channels mute : Nat) (ops : List PushOp)
    (hbits : ∀ op ∈ ops, op.bits ≤ 8) :
    ((rrRun (rrNew channels mute) ops).1.length +
        (if (rrRun (rrNew channels mute) ops).2.bitCount = 0 then 0 else 1) =
      ((ops.map (fun op => op.bits)).sum + 31) / 32) ∧
    ((rrFinal (rrRun (rrNew channels mute) ops).2 mute).length =
      if (rrRun (rrNew channels mute) ops).2.bitCount = 0 then 0 else channels) ∧
    (∀ g ∈ (rrRun (rrNew channels mute) ops).1, g.length = channels) ∧
    (∀ s : ReadRest, 32 ≤ s.bitCount →
      rrFull s = some (s.rest.map (fun r => r / 2 ^ (s.bitCount - 32) % 2 ^ 32),
        ⟨s.rest, s.bitCount - 32⟩)) ∧
    (∀ s : ReadRest, s.bitCount < 32 → rrFull s = none) ∧
    (∀ i : Nat, (rrRun (rrNew channels mute) (ops.take i)).2.bitCount < 32) := by
  have hnew : (rrNew channels mute).bitCount = 0 := rfl
  have hnewlen : (rrNew channels mute).rest.length = channels := by
    simp [rrNew]
  obtain ⟨hc, hbc, hlen, hg⟩ := rrRun_props ops (rrNew channels mute)
    (by rw [hnew]; omega) hbits
  refine ⟨?_, ?_, ?_, ?_, ?_, ?_⟩
  · rw [hc, hbc, hnew]
    simp only [Nat.zero_add]
    by_cases h0 : (ops.map (fun op => op.bits)).sum % 32 = 0 <;> simp [h0] <;> omega
  · rw [rrFinal]
    by_cases h0 : (rrRun (rrNew channels mute) ops).2.bitCount = 0
    · simp [h0]
    · simp [h0, hlen, hnewlen]
  · intro g hgm
    rw [hg g hgm, hnewlen]
  · intro s hs
    rw [rrFull, if_neg (by omega)]
  · intro s hs
    rw [rrFull, if_pos hs]
  · intro i
    obtain ⟨_, hbc', _, _⟩ := rrRun_props (ops.take i) (rrNew channels mute)
      (by rw [hnew]; omega) (fun op ho => hbits op (List.take_subset i ops ho))
    rw [hbc', hnew]
    exact Nat.mod_lt _ (by omega)

/-- C3 witness: pushing nine whole bytes into a 2-channel reassembler emits
two word pairs plus one finalization pair, `ceil(72/32) = 3`. -/
theorem dsd_word_count_witness :
    ((rrRun (rrNew 2 105) (List.replicate 9 ⟨false, [255, 0], 8⟩)).1.length +
        (if (rrRun (rrNew 2 105) (List.replicate 9 ⟨false, [255, 0], 8⟩)).2.bitCount = 0
          then 0 else 1) =
      (((List.replicate 9 (⟨false, [255, 0], 8⟩ : PushOp)).map
          (fun op => op.bits)).sum + 31) / 32) ∧
    ∀ i : Nat,
      (rrRun (rrNew 2 105) ((List.replicate 9 ⟨false, [255, 0], 8⟩).take i)).2.bitCount < 32 := by
  have h := dsd_word_count 2 105 (List.replicate 9 ⟨false, [255, 0], 8⟩)
    (by intro op hop; rw [List.eq_of_mem_replicate hop])
  exact ⟨h.1, h.2.2.2.2.2⟩

/-- C4: evaluation of `ReadRest::final` at a concrete reachable state
(1 channel, mute byte `0x69`, one pushed byte `0xFF`, `bit_count = 8`).
The code emits `0xFF000001`: the `&= (32 - bit_count) - 1` scalar mask
wipes the mute fill, while the spec's word (mute pattern in the low
`32 - bit_count` bits) is `0xFF696969`. -/
theorem dsd_final_mute_bug :
    rrFinal (rrPushMsb [255] 8 (rrNew 1 105)) 105 = [0xFF000001] ∧
    specFinalWords (rrPushMsb [255] 8 (rrNew 1 105)) 105 = [0xFF696969] ∧
    rrFinal (rrPushMsb [255] 8 (rrNew 1 105)) 105 ≠
      specFinalWords (rrPushMsb [255] 8 (rrNew 1 105)) 105 := by
  refine ⟨?_, ?_, ?_⟩ <;> decide

/-! ## PCM reading and sample normalization (`lib_wav.cpp`, WAV::readPCM) -/

/-- `WAV::read4bytes`: little-endian 4-byte value. -/
def read4LE (l : List Nat) : Nat :=
  l.getD 0 0 + l.getD 1 0 * 2 ^ 8 + l.getD 2 0 * 2 ^ 16 + l.getD 3 0 * 2 ^ 24

/-- The `std::ifstream` as seen by `readPCM`: the bytes from the current
position to the end of the file, plus the fail bit. -/
structure FileState where
  bytes : List Nat
  fail : Bool
  deriving Repr, DecidableEq

/-- `file_.read(buf, n)`: on a failed stream the sentry fails; a short read
consumes what is left and raises the fail bit. -/
def fread (n : Nat) (fs : FileState) : Option (List Nat) × FileState :=
  if fs.fail then (none, fs)
  else if n ≤ fs.bytes.length then (some (fs.bytes.take n), ⟨fs.bytes.drop n, false⟩)
  else (none, ⟨[], true⟩)

/-- `file_.seekg(n, cur)`. -/
def fseek (n : Nat) (fs : FileState) : FileState :=
  ⟨fs.bytes.drop n, fs.fail⟩

/-- Per-file PCM state of a `WAV`: stream, `pcm_data_remaining_`,
`end_of_stream_`. -/
structure PCMReader where
  fs : FileState
  pcmRemaining : Nat
  eos : Bool
  deriving Repr, DecidableEq

/-- `WAV::is_empty()`: `end_of_stream_ || file_.fail()`. -/
def pcmIsEmpty (r : PCMReader) : Bool :=
  r.eos || r.fs.fail

/-- The `readPCM` chunk scan loop (`while (!file_.read(s,4).fail())`):
read a 4-byte id and a 4-byte little-endian size; stop at the `"data"` id,
otherwise skip `size` bytes and continue.  Returns whether `"data"` was
found, the last size assigned to `pcm_data_remaining_`, and the stream.
The fuel argument only bounds the recursion; each iteration consumes at
least four bytes, so `bytes.length + 1` units never run out. -/
def scanDataFuel : Nat → FileState → Nat → Bool × Nat × FileState
  | 0, fs, last => (false, last, fs)
  | fuel + 1, fs, last =>
    match fread 4 fs with
    | (none, fs1) => (false, last, fs1)
    | (some s, fs1) =>
      let q := fread 4 fs1
      let size := match q.1 with | some b => read4LE b | none => 0
      if s = [100, 97, 116, 97] then (true, size, q.2)
      else scanDataFuel fuel (fseek size q.2) size

/-- The chunk scan with sufficient fuel. -/
def scanData (fs : FileState) : Bool × Nat × FileState :=
  scanDataFuel (fs.bytes.length + 1) fs 0

/-- The widening of one source sample in the `format_.getWid() == 1`
branches: `t = get_8()[a]; t <<= 24`. -/
def widen1 (b : Nat) : Nat :=
  b % 256 * 2 ^ 24

/-- `format_.getWid() == 2`: `t = get_16()[a]; t <<= 16` (little-endian
16-bit view). -/
def widen2 (lo hi : Nat) : Nat :=
  (lo % 256 + hi % 256 * 2 ^ 8) * 2 ^ 16

/-- `format_.getWid() == 3`: `t = b2; t <<= 8; t |= b1; t <<= 8; t |= b0;
t <<= 8`. -/
def widen3 (b0 b1 b2 : Nat) : Nat :=
  ((b2 % 256 * 2 ^ 8 + b1 % 256) * 2 ^ 8 + b0 % 256) * 2 ^ 8

/-- The word written for sample index `a` of the source byte buffer, by
source width. -/
def widenAt (wid : Nat) (buffer : List Nat) (a : Nat) : Nat :=
  if wid = 1 then widen1 (buffer.getD a 0)
  else if wid = 2 then widen2 (buffer.getD (2 * a) 0) (buffer.getD (2 * a + 1) 0)
  else if wid = 3 then
    widen3 (buffer.getD (3 * a) 0) (buffer.getD (3 * a + 1) 0) (buffer.getD (3 * a + 2) 0)
  else 0

/-- The `convert_to_2ch_32bit_` block of `readPCM`: `frame_count =
buffer.size() / getWid()`; mono sources write each widened word to both
stereo slots, other sources write one word per source sample.  The result
is the `tmp` buffer viewed through `get_32()`. -/
def convertPCM (wid channels : Nat) (buffer : List Nat) : List Nat :=
  let frameCount := buffer.length / wid
  if channels = 1 then
    (List.range frameCount).flatMap (fun a => [widenAt wid buffer a, widenAt wid buffer a])
  else
    (List.range frameCount).map (widenAt wid buffer)

/-- Little-endian serialisation of one 32-bit word (the byte image of the
`tmp` buffer written through `get_32()` on the little-endian host). -/
def wordToBytesLE (w : Nat) : List Nat :=
  [w % 256, w / 2 ^ 8 % 256, w / 2 ^ 16 % 256, w / 2 ^ 24 % 256]

/-- Byte image of a whole word buffer. -/
def wordsToBytesLE (ws : List Nat) : List Nat :=
  ws.flatMap wordToBytesLE

/-- `WAV::readPCM`: scale the target byte count to source units when the
normalized path is active, locate the `data` chunk when
`pcm_data_remaining_ == 0` (end of stream when the scan fails), clamp the
target to the chunk remainder, read, and normalize when requested.
Returns the C++ `bool` result, the output buffer bytes, and the new
state. -/
def readPCM (convert : Bool) (srcFrame dstFrame wid channels : Nat)
    (r : PCMReader) (targetBytes : Nat) : Bool × List Nat × PCMReader :=
  let target := if convert then targetBytes * srcFrame / dstFrame else targetBytes
  let scan :=
    if r.pcmRemaining = 0 then
      let q := scanData r.fs
      if q.1 then some (q.2.1, q.2.2) else none
    else some (r.pcmRemaining, r.fs)
  match scan with
  | none => (true, [], ⟨(scanData r.fs).2.2, (scanData r.fs).2.1, true⟩)
  | some (remaining, fs) =>
    let t2 := if target > remaining then remaining else target
    match fread t2 fs with
    | (none, fs2) => (false, [], ⟨fs2, remaining, r.eos⟩)
    | (some data, fs2) =>
      let out := if convert then wordsToBytesLE (convertPCM wid channels data) else data
      (true, out, ⟨fs2, remaining - t2, r.eos⟩)

/-- The little-endian value of the `a`-th `w`-byte source sample. -/
def sampleValue (w a : Nat) (bytes : List Nat) : Nat :=
  (List.range w).foldr (fun i acc => acc * 2 ^ 8 + bytes.getD (w * a + i) 0 % 256) 0

/-- All source sample values of a buffer, in order. -/
def sampleValues (w : Nat) (bytes : List Nat) : List Nat :=
  (List.range (bytes.length / w)).map (fun a => sampleValue w a bytes)

lemma flatMapOfMap {α β γ : Type} (l : List α) (f : α → β) (g : β → List γ) :
    (l.map f).flatMap g = l.flatMap (fun a => g (f a)) := by
  induction l with
  | nil => rfl
  | cons x xs ih => simp [ih]

lemma flatMapCongr {α β : Type} (l : List α) (f g : α → List β)
    (h : ∀ a ∈ l, f a = g a) : l.flatMap f = l.flatMap g := by
  induction l with
  | nil => rfl
  | cons x xs ih =>
    simp only [List.flatMap_cons, h x (by simp),
      ih (fun a ha => h a (by simp [ha]))]

lemma twosComplementWiden (bw k v : Nat) (hk : bw + k = 32) (hv : v < 2 ^ bw) :
    (((if v < 2 ^ (bw - 1) then (v : Int) else (v : Int) - 2 ^ bw) * 2 ^ k) %
      2 ^ 32).toNat = v * 2 ^ k := by
  have hcast : ((v * 2 ^ k : Nat) : Int) = (v : Int) * 2 ^ k := by push_cast; ring
  have hlt : (v : Int) * 2 ^ k < 2 ^ 32 := by
    have h1 : v * 2 ^ k < 2 ^ bw * 2 ^ k :=
      Nat.mul_lt_mul_of_lt_of_le hv (le_refl _) (Nat.pos_pow_of_pos k (by norm_num))
    have h2 : 2 ^ bw * 2 ^ k = 2 ^ 32 := by rw [← pow_add, hk]
    rw [← hcast]
    exact_mod_cast h2 ▸ h1
  have hnn : (0 : Int) ≤ (v : Int) * 2 ^ k := by positivity
  by_cases hs : v < 2 ^ (bw - 1)
  · rw [if_pos hs, Int.emod_eq_of_lt hnn hlt, ← hcast, Int.toNat_natCast]
  · rw [if_neg hs]
    have hexp : ((v : Int) - 2 ^ bw) * 2 ^ k = (v : Int) * 2 ^ k - 2 ^ 32 := by
      have h2 : (2 : Int) ^ bw * 2 ^ k = 2 ^ 32 := by rw [← pow_add, hk]
      calc ((v : Int) - 2 ^ bw) * 2 ^ k
          = (v : Int) * 2 ^ k - 2 ^ bw * 2 ^ k := by ring
        _ = (v : Int) * 2 ^ k - 2 ^ 32 := by rw [h2]
    rw [hexp, Int.emod_sub_cancel, Int.emod_eq_of_lt hnn hlt, ← hcast,
      Int.toNat_natCast]

lemma widenAt_eq_sampleValue (w : Nat) (hw : w = 1 ∨ w = 2 ∨ w = 3)
    (buffer : List Nat) (a : Nat) :
    widenAt w buffer a = sampleValue w a buffer * 2 ^ (32 - 8 * w) := by
  rcases hw with rfl | rfl | rfl
  · simp [widenAt, widen1, widen2, widen3, sampleValue, List.range_succ]
  · simp [widenAt, widen1, widen2, widen3, sampleValue, List.range_succ]
    ring
  · simp [widenAt, widen1, widen2, widen3, sampleValue, List.range_succ]

/-- C5: in the normalized path, each `w`-byte little-endian source sample
of value `s` (`w ∈ {1,2,3}`) is emitted as the 32-bit word
`s * 2^(32-8w)`, whose low `32-8w` bits are zero and which equals the
two's-complement product `(s_signed << (32-8w)) mod 2^32`; mono sources
emit every word twice, others once per sample; concretely a mono 16-bit
sample `0x1234` yields the words `0x12340000, 0x12340000` (little-endian
bytes `00 00 34 12 00 00 34 12`). -/
theorem pcm_normalization (w : Nat) (hw : w = 1 ∨ w = 2 ∨ w = 3)
    (channels : Nat) (bytes : List Nat) :
    (convertPCM w channels bytes =
      if channels = 1 then
        (sampleValues w bytes).flatMap
          (fun s => [s * 2 ^ (32 - 8 * w), s * 2 ^ (32 - 8 * w)])
      else (sampleValues w bytes).map (fun s => s * 2 ^ (32 - 8 * w))) ∧
    (∀ s ∈ sampleValues w bytes, s * 2 ^ (32 - 8 * w) % 2 ^ (32 - 8 * w) = 0) ∧
    (∀ v : Nat, v < 2 ^ (8 * w) →
      (((if v < 2 ^ (8 * w - 1) then (v : Int) else (v : Int) - 2 ^ (8 * w)) *
          2 ^ (32 - 8 * w)) % 2 ^ 32).toNat = v * 2 ^ (32 - 8 * w)) ∧
    convertPCM 2 1 [0x34, 0x12] = [0x12340000, 0x12340000] ∧
    wordsToBytesLE (convertPCM 2 1 [0x34, 0x12]) =
      [0x00, 0x00, 0x34, 0x12, 0x00, 0x00, 0x34, 0x12] := by
  refine ⟨?_, ?_, ?_, by decide, by decide⟩
  · simp only [convertPCM, sampleValues]
    by_cases hch : channels = 1
    · rw [if_pos hch, if_pos hch, flatMapOfMap]
      exact flatMapCongr _ _ _ (fun a ha =>
        by rw [widenAt_eq_sampleValue w hw])
    · rw [if_neg hch, if_neg hch, List.map_map]
      exact List.map_congr_left (fun a ha =>
        by simp [widenAt_eq_sampleValue w hw])
  · intro s _
    exact Nat.mul_mod_left _ _
  · intro v hv
    refine twosComplementWiden (8 * w) (32 - 8 * w) v ?_ hv
    rcases hw with rfl | rfl | rfl <;> norm_num

/-- C5 witness: the mono 16-bit sample `0x1234` instantiates the
normalization theorem. -/
theorem pcm_normalization_witness :
    convertPCM 2 1 [0x34, 0x12] =
      (if (1 : Nat) = 1 then
        (sampleValues 2 [0x34, 0x12]).flatMap
          (fun s => [s * 2 ^ (32 - 8 * 2), s * 2 ^ (32 - 8 * 2)])
      else (sampleValues 2 [0x34, 0x12]).map (fun s => s * 2 ^ (32 - 8 * 2))) :=
  (pcm_normalization 2 (Or.inr (Or.inl rfl)) 1 [0x34, 0x12]).1

/-- C8: for a PCM stream whose next chunk is a `data` chunk declaring size
0 at the end of the file, the first read locates the chunk and succeeds
with an empty buffer, the second read succeeds with an empty buffer and
raises `end_of_stream_`, so `is_empty()` becomes true and no audio bytes
are ever produced.  Holds for every requested byte count and both the raw
and the normalized path. -/
theorem zero_data_chunk (convert : Bool) (srcFrame dstFrame wid channels : Nat)
    (target1 target2 : Nat) :
    (readPCM convert srcFrame dstFrame wid channels
        ⟨⟨[100, 97, 116, 97, 0, 0, 0, 0], false⟩, 0, false⟩ target1).1 = true ∧
    (readPCM convert srcFrame dstFrame wid channels
        ⟨⟨[100, 97, 116, 97, 0, 0, 0, 0], false⟩, 0, false⟩ target1).2.1 = [] ∧
    (readPCM convert srcFrame dstFrame wid channels
      (readPCM convert srcFrame dstFrame wid channels
        ⟨⟨[100, 97, 116, 97, 0, 0, 0, 0], false⟩, 0, false⟩ target1).2.2 target2).1
      = true ∧
    (readPCM convert srcFrame dstFrame wid channels
      (readPCM convert srcFrame dstFrame wid channels
        ⟨⟨[100, 97, 116, 97, 0, 0, 0, 0], false⟩, 0, false⟩ target1).2.2 target2).2.1
      = [] ∧
    pcmIsEmpty (readPCM convert srcFrame dstFrame wid channels
      (readPCM convert srcFrame dstFrame wid channels
        ⟨⟨[100, 97, 116, 97, 0, 0, 0, 0], false⟩, 0, false⟩ target1).2.2 target2).2.2
      = true := by
  have hscan1 : scanData ⟨[100, 97, 116, 97, 0, 0, 0, 0], false⟩ =
      (true, 0, ⟨[], false⟩) := by decide
  have ht2 : ∀ t : Nat, (if t > 0 then 0 else t) = 0 := by
    intro t
    split <;> omega
  have hfr : fread 0 ⟨[], false⟩ = (some [], ⟨[], false⟩) := by decide
  have hread1 : readPCM convert srcFrame dstFrame wid channels
      ⟨⟨[100, 97, 116, 97, 0, 0, 0, 0], false⟩, 0, false⟩ target1 =
      (true, [], ⟨⟨[], false⟩, 0, false⟩) := by
    rw [readPCM]
    simp [hscan1, ht2, hfr, convertPCM, wordsToBytesLE]
  rw [hread1]
  have hscan2 : scanData ⟨[], false⟩ = (false, 0, ⟨[], true⟩) := by decide
  have hread2 : readPCM convert srcFrame dstFrame wid channels
      ⟨⟨[], false⟩, 0, false⟩ target2 = (true, [], ⟨⟨[], true⟩, 0, true⟩) := by
    rw [readPCM]
    simp [hscan2]
  rw [hread2]
  exact ⟨rfl, rfl, rfl, rfl, rfl⟩

/-! ## Control session (`lib_memory_play_controller.cpp`, ControlSession) -/

def MPC_SUCCESS : Int := 0
def MPC_ERROR_INVALID_PARAM : Int := -4
def MPC_ERROR_CONNECTION : Int := -5
def MPC_ERROR_TIMEOUT : Int := -6

/-- The `ControlSession` state visible to the claims: the `connected`
flag (the TCP client itself is abstracted into the send/receive
outcomes below). -/
structure Session where
  connected : Bool
  deriving Repr, DecidableEq

/-- Result of one command: the returned code, the session state after the
call, and the `Command` frames handed to `client.send` (empty when the
transport was never used). -/
structure CmdResult where
  code : Int
  session : Session
  sentFrames : List (List (String × String))
  deriving Repr, DecidableEq

/-- `ControlSession::seek`: `"+" << offset` when `offset_seconds > 0`,
plain `<< offset` otherwise. -/
def seekValue (offset : Int) : String :=
  if 0 < offset then "+" ++ toString offset else toString offset

/-- Shape shared by `connect_target`, `play`, `pause`, `seek`,
`seek_to_start`, `seek_absolute` and `quit`: guard on `connected`, build a
one-header `Command` frame, send it, `MPC_ERROR_CONNECTION` on send
failure (without touching `connected`). -/
def simpleCommand (hdr : String × String) (s : Session) (sendOk : Bool) : CmdResult :=
  if ¬ s.connected then ⟨MPC_ERROR_CONNECTION, s, []⟩
  else if sendOk then ⟨MPC_SUCCESS, s, [[hdr]]⟩
  else ⟨MPC_ERROR_CONNECTION, s, [[hdr]]⟩

def sessionPlay (s : Session) (sendOk : Bool) : CmdResult :=
  simpleCommand ("Play", "") s sendOk

def sessionPause (s : Session) (sendOk : Bool) : CmdResult :=
  simpleCommand ("Pause", "") s sendOk

def sessionSeek (offset : Int) (s : Session) (sendOk : Bool) : CmdResult :=
  simpleCommand ("Seek", seekValue offset) s sendOk

def sessionSeekToStart (s : Session) (sendOk : Bool) : CmdResult :=
  simpleCommand ("Seek", "Front") s sendOk

def sessionSeekAbsolute (pos : Int) (s : Session) (sendOk : Bool) : CmdResult :=
  simpleCommand ("Seek", toString pos) s sendOk

def sessionQuit (s : Session) (sendOk : Bool) : CmdResult :=
  simpleCommand ("Seek", "Quit") s sendOk

def sessionConnectTarget (addr : String) (iface : Nat) (s : Session)
    (sendOk : Bool) : CmdResult :=
  simpleCommand ("Connect", addr ++ " " ++ toString iface) s sendOk

/-- How a `receiveMessages` wait loop ends when no handler terminated it:
the reply deadline elapsed (`WAIT_CODE::TIMEOUT` accumulation) or a socket
error (`WAIT_CODE::ERROR` / failed `receive`). -/
inductive RecvEnd
  | timeout
  | socketError
  deriving Repr, DecidableEq

/-- The error code `receiveMessages` returns for each loop ending. -/
def endCode : RecvEnd → Int
  | RecvEnd.timeout => MPC_ERROR_TIMEOUT
  | RecvEnd.socketError => MPC_ERROR_CONNECTION

/-- The reply traffic observed by one `receiveMessages` call: the parsed
`key=value` headers delivered before the loop would end, and how it ends.
The byte-level framing feeding this header stream is modelled by
`checkFrame` and `receiveMessageFrames` above. -/
structure ReplyStream where
  headers : List (String × String)
  ending : RecvEnd

/-- `receiveMessages`: invoke the frame handler on each header in arrival
order; return `MPC_SUCCESS` as soon as a handler returns true, otherwise
the ending's error code. -/
def runHandlers {σ : Type} (handle : σ → String × String → σ × Bool) :
    σ → List (String × String) → RecvEnd → Int × σ
  | st, [], ending => (endCode ending, st)
  | st, kv :: rest, ending =>
    let r := handle st kv
    if r.2 then (MPC_SUCCESS, r.1) else runHandlers handle r.1 rest ending

def parseDigits : List Char → Nat → Nat
  | [], acc => acc
  | c :: cs, acc => if c.isDigit then parseDigits cs (acc * 10 + (c.toNat - 48)) else acc

/-- The C `atoll` used on ack and `LastTime` values: skip whitespace, an
optional sign, then a maximal digit prefix (0 when there is none). -/
def atoll (s : String) : Int :=
  match s.toList.dropWhile (fun c => c.isWhitespace) with
  | '-' :: rest => -(parseDigits rest 0 : Int)
  | '+' :: rest => (parseDigits rest 0 : Int)
  | l => (parseDigits l 0 : Int)

/-- The `handleStatus` lambda of `get_play_status`; the state is the
`MPCPlaybackStatus` output (0 disconnected, 1 playing, 2 paused). -/
def handleStatus (st : Int) (kv : String × String) : Int × Bool :=
  if kv.1 = "Status" then
    (if kv.2 = "Disconnect" then 0
      else if kv.2 = "Play" then 1
      else if kv.2 = "Pause" then 2
      else st, true)
  else (st, false)

/-- The `handleTime` lambda of `get_current_time`. -/
def handleTime (t : Int) (kv : String × String) : Int × Bool :=
  if kv.1 = "Status" ∧ (kv.2 = "Disconnect" ∨ kv.2 = "Pause") then (t, true)
  else if kv.1 = "LastTime" then (atoll kv.2, true)
  else (t, false)

/-- The `handleTags` lambda of `get_tag_list`. -/
def handleTags (tags : List String) (kv : String × String) : List String × Bool :=
  if kv.1 = "Tag" then (tags ++ [kv.2], false) else (tags, true)

/-- Result of a request-style query: code, session state after the call,
and the caller's output location (`none` = left untouched). -/
structure QueryResult (α : Type) where
  code : Int
  session : Session
  output : Option α
  deriving Repr, DecidableEq

/-- `ControlSession::get_play_status`: `MPC_ERROR_INVALID_PARAM` when not
connected, preset `*status = MPC_STATUS_DISCONNECTED` (0), send
`Request=Status`, drain replies; only a `MPC_ERROR_CONNECTION` result of
the receive loop is surfaced (clearing `connected`), everything else
returns `MPC_SUCCESS`. -/
def getPlayStatus (s : Session) (sendOk : Bool) (stream : ReplyStream) :
    QueryResult Int :=
  if ¬ s.connected then ⟨MPC_ERROR_INVALID_PARAM, s, none⟩
  else if ¬ sendOk then ⟨MPC_ERROR_CONNECTION, s, some 0⟩
  else
    let r := runHandlers handleStatus 0 stream.headers stream.ending
    if r.1 = MPC_ERROR_CONNECTION then ⟨MPC_ERROR_CONNECTION, ⟨false⟩, some r.2⟩
    else ⟨MPC_SUCCESS, s, some r.2⟩

/-- `ControlSession::get_current_time`: same shape with preset
`*time_seconds = -1` and a 1250 ms reply deadline. -/
def getCurrentTime (s : Session) (sendOk : Bool) (stream : ReplyStream) :
    QueryResult Int :=
  if ¬ s.connected then ⟨MPC_ERROR_INVALID_PARAM, s, none⟩
  else if ¬ sendOk then ⟨MPC_ERROR_CONNECTION, s, some (-1)⟩
  else
    let r := runHandlers handleTime (-1) stream.headers stream.ending
    if r.1 = MPC_ERROR_CONNECTION then ⟨MPC_ERROR_CONNECTION, ⟨false⟩, some r.2⟩
    else ⟨MPC_SUCCESS, s, some r.2⟩

/-- `ControlSession::get_tag_list`: guard returns `MPC_ERROR_CONNECTION`,
preset is the cleared tag vector. -/
def getTagList (s : Session) (sendOk : Bool) (stream : ReplyStream) :
    QueryResult (List String) :=
  if ¬ s.connected then ⟨MPC_ERROR_CONNECTION, s, none⟩
  else if ¬ sendOk then ⟨MPC_ERROR_CONNECTION, s, some []⟩
  else
    let r := runHandlers handleTags [] stream.headers stream.ending
    if r.1 = MPC_ERROR_CONNECTION then ⟨MPC_ERROR_CONNECTION, ⟨false⟩, some r.2⟩
    else ⟨MPC_SUCCESS, s, some r.2⟩

/-- C7: `seek(Δ)` on a connected session with a working transport sends
exactly one Command frame holding the single header `Seek` whose value is
the decimal rendering of `Δ` prefixed with `+` exactly when `Δ > 0`; in
particular `seek(0)` sends `"0"` (0 is treated as non-positive, matching
the source against the spec's boundary note) and `seek(-5)` sends
`"-5"`. -/
theorem seek_header (s : Session) (offset : Int) (hs : s.connected = true) :
    sessionSeek offset s true =
      ⟨MPC_SUCCESS, s,
        [[("Seek", if 0 < offset then "+" ++ toString offset else toString offset)]]⟩ ∧
    seekValue 0 = "0" ∧ seekValue (-5) = "-5" ∧ seekValue 7 = "+7" := by
  refine ⟨?_, by decide, by decide, by decide⟩
  rw [sessionSeek, simpleCommand, hs]
  simp [seekValue]

/-- C7 witness: `seek(0)` and `seek(-5)` at a concrete connected session. -/
theorem seek_header_witness :
    sessionSeek 0 ⟨true⟩ true = ⟨MPC_SUCCESS, ⟨true⟩, [[("Seek", "0")]]⟩ ∧
    sessionSeek (-5) ⟨true⟩ true = ⟨MPC_SUCCESS, ⟨true⟩, [[("Seek", "-5")]]⟩ := by
  have h0 := (seek_header ⟨true⟩ 0 rfl).1
  have h5 := (seek_header ⟨true⟩ (-5) rfl).1
  refine ⟨?_, ?_⟩
  · rw [h0]; decide
  · rw [h5]; decide

/-- C9 counterexample: a failed send on a connected session returns the
Connection error but leaves the `connected` flag true, contradicting the
claim that any connection failure makes the flag false. -/
theorem connection_flag_cex :
    (sessionPlay ⟨true⟩ false).code = MPC_ERROR_CONNECTION ∧
    (sessionPlay ⟨true⟩ false).session.connected = true := by
  decide

lemma runHandlers_all_skip {σ : Type} (handle : σ → String × String → σ × Bool)
    (st : σ) (ending : RecvEnd) :
    ∀ headers : List (String × String), (∀ kv ∈ headers, handle st kv = (st, false)) →
    runHandlers handle st headers ending = (endCode ending, st) := by
  intro headers
  induction headers with
  | nil => intro _; rfl
  | cons kv rest ih =>
    intro h
    rw [runHandlers]
    rw [h kv (by simp)]
    simp only [if_neg (by simp : ¬ (false = true))]
    exact ih (fun kv' h' => h kv' (by simp [h']))

/-- C9 (amended): on a session whose `connected` flag is false every
guarded command (`connect_target`, `play`, `pause`, `seek`,
`seek_to_start`, `seek_absolute`, `quit`, `get_tag_list`) returns the
Connection error without using the transport, while the two status
queries return `MPC_ERROR_INVALID_PARAM`; a failed send returns the
Connection error but leaves `connected` unchanged; only a socket error
reported by the reply-draining loop of the three queries clears
`connected`. -/
theorem connection_failures (s : Session) (sendOk : Bool) (stream : ReplyStream)
    (offset pos : Int) (addr : String) (iface : Nat)
    (hs : s.connected = false) :
    (sessionPlay s sendOk = ⟨MPC_ERROR_CONNECTION, s, []⟩ ∧
      sessionPause s sendOk = ⟨MPC_ERROR_CONNECTION, s, []⟩ ∧
      sessionSeek offset s sendOk = ⟨MPC_ERROR_CONNECTION, s, []⟩ ∧
      sessionSeekToStart s sendOk = ⟨MPC_ERROR_CONNECTION, s, []⟩ ∧
      sessionSeekAbsolute pos s sendOk = ⟨MPC_ERROR_CONNECTION, s, []⟩ ∧
      sessionQuit s sendOk = ⟨MPC_ERROR_CONNECTION, s, []⟩ ∧
      sessionConnectTarget addr iface s sendOk = ⟨MPC_ERROR_CONNECTION, s, []⟩ ∧
      getTagList s sendOk stream = ⟨MPC_ERROR_CONNECTION, s, none⟩) ∧
    (getPlayStatus s sendOk stream = ⟨MPC_ERROR_INVALID_PARAM, s, none⟩ ∧
      getCurrentTime s sendOk stream = ⟨MPC_ERROR_INVALID_PARAM, s, none⟩) ∧
    (∀ s' : Session, (sessionPlay s' false).session = s' ∧
      (getPlayStatus s' false stream).session = s' ∧
      (getCurrentTime s' false stream).session = s') ∧
    (∀ s' : Session, s'.connected = true →
      (runHandlers handleStatus 0 stream.headers stream.ending).1 =
        MPC_ERROR_CONNECTION →
      (getPlayStatus s' true stream).session.connected = false ∧
      (getPlayStatus s' true stream).code = MPC_ERROR_CONNECTION) := by
  have hns : ¬ s.connected = true := by rw [hs]; exact Bool.false_ne_true
  refine ⟨⟨?_, ?_, ?_, ?_, ?_, ?_, ?_, ?_⟩, ⟨?_, ?_⟩, ?_, ?_⟩
  · rw [sessionPlay, simpleCommand, if_pos hns]
  · rw [sessionPause, simpleCommand, if_pos hns]
  · rw [sessionSeek, simpleCommand, if_pos hns]
  · rw [sessionSeekToStart, simpleCommand, if_pos hns]
  · rw [sessionSeekAbsolute, simpleCommand, if_pos hns]
  · rw [sessionQuit, simpleCommand, if_pos hns]
  · rw [sessionConnectTarget, simpleCommand, if_pos hns]
  · rw [getTagList, if_pos hns]
  · rw [getPlayStatus, if_pos hns]
  · rw [getCurrentTime, if_pos hns]
  · intro s'
    by_cases hc : s'.connected = true
    · refine ⟨?_, ?_, ?_⟩
      · rw [sessionPlay, simpleCommand, if_neg (by simp [hc])]
        simp
      · rw [getPlayStatus, if_neg (by simp [hc])]
        simp
      · rw [getCurrentTime, if_neg (by simp [hc])]
        simp
    · refine ⟨?_, ?_, ?_⟩
      · rw [sessionPlay, simpleCommand, if_pos hc]
      · rw [getPlayStatus, if_pos hc]
      · rw [getCurrentTime, if_pos hc]
  · intro s' hc hconn
    rw [getPlayStatus, if_neg (by simp [hc]), if_neg (by simp)]
    simp only [hconn, if_pos rfl]
    exact ⟨rfl, rfl⟩

/-- C9 witness: the amended behaviour at a concrete disconnected session
and a concrete error stream. -/
theorem connection_failures_witness :
    sessionPlay ⟨false⟩ true = ⟨MPC_ERROR_CONNECTION, ⟨false⟩, []⟩ ∧
    getPlayStatus ⟨false⟩ true ⟨[], RecvEnd.socketError⟩ =
      ⟨MPC_ERROR_INVALID_PARAM, ⟨false⟩, none⟩ ∧
    (getPlayStatus ⟨true⟩ true ⟨[], RecvEnd.socketError⟩).session.connected = false := by
  have h := connection_failures ⟨false⟩ true ⟨[], RecvEnd.socketError⟩ 0 0 "" 0 rfl
  refine ⟨h.1.1, h.2.1.1, (h.2.2.2 ⟨true⟩ rfl ?_).1⟩
  decide

/-- C10: when the reply stream carries no header that terminates the
query's handler and the receive loop times out, `get_play_status`
(resp. `get_current_time`) still returns `MPC_SUCCESS` with the output at
its preset default `MPC_STATUS_DISCONNECTED = 0` (resp. `-1`); moreover
neither query ever returns `MPC_ERROR_TIMEOUT`, for any session state,
send outcome and reply stream. -/
theorem status_timeout_swallowed (s : Session) (headers : List (String × String))
    (hs : s.connected = true)
    (hnostatus : ∀ kv ∈ headers, kv.1 ≠ "Status")
    (hnotime : ∀ kv ∈ headers, kv.1 ≠ "LastTime") :
    getPlayStatus s true ⟨headers, RecvEnd.timeout⟩ = ⟨MPC_SUCCESS, s, some 0⟩ ∧
    getCurrentTime s true ⟨headers, RecvEnd.timeout⟩ = ⟨MPC_SUCCESS, s, some (-1)⟩ ∧
    (∀ (s' : Session) (sendOk : Bool) (stream : ReplyStream),
      (getPlayStatus s' sendOk stream).code ≠ MPC_ERROR_TIMEOUT) ∧
    (∀ (s' : Session) (sendOk : Bool) (stream : ReplyStream),
      (getCurrentTime s' sendOk stream).code ≠ MPC_ERROR_TIMEOUT) := by
  have hskipS : runHandlers handleStatus 0 headers RecvEnd.timeout =
      (MPC_ERROR_TIMEOUT, 0) :=
    runHandlers_all_skip _ _ _ headers
      (fun kv h => by simp [handleStatus, hnostatus kv h])
  have hskipT : runHandlers handleTime (-1) headers RecvEnd.timeout =
      (MPC_ERROR_TIMEOUT, -1) :=
    runHandlers_all_skip _ _ _ headers
      (fun kv h => by simp [handleTime, hnostatus kv h, hnotime kv h])
  refine ⟨?_, ?_, ?_, ?_⟩
  · rw [getPlayStatus, if_neg (by simp [hs]), if_neg (by simp)]
    simp only [hskipS]
    rw [if_neg (by decide)]
  · rw [getCurrentTime, if_neg (by simp [hs]), if_neg (by simp)]
    simp only [hskipT]
    rw [if_neg (by decide)]
  · intro s' sendOk stream
    simp only [getPlayStatus]
    split
    · simp [MPC_ERROR_INVALID_PARAM, MPC_ERROR_TIMEOUT]
    · split
      · simp [MPC_ERROR_CONNECTION, MPC_ERROR_TIMEOUT]
      · split <;> simp [MPC_ERROR_CONNECTION, MPC_ERROR_TIMEOUT, MPC_SUCCESS]
  · intro s' sendOk stream
    simp only [getCurrentTime]
    split
    · simp [MPC_ERROR_INVALID_PARAM, MPC_ERROR_TIMEOUT]
    · split
      · simp [MPC_ERROR_CONNECTION, MPC_ERROR_TIMEOUT]
      · split <;> simp [MPC_ERROR_CONNECTION, MPC_ERROR_TIMEOUT, MPC_SUCCESS]

/-- C10 witness: an empty reply stream that times out. -/
theorem status_timeout_swallowed_witness :
    getPlayStatus ⟨true⟩ true ⟨[], RecvEnd.timeout⟩ = ⟨MPC_SUCCESS, ⟨true⟩, some 0⟩ ∧
    getCurrentTime ⟨true⟩ true ⟨[], RecvEnd.timeout⟩ =
      ⟨MPC_SUCCESS, ⟨true⟩, some (-1)⟩ :=
  ⟨(status_timeout_swallowed ⟨true⟩ [] rfl (by simp) (by simp)).1,
    (status_timeout_swallowed ⟨true⟩ [] rfl (by simp) (by simp)).2.1⟩

/-! ## Upload engine (`lib_memory_play_controller.cpp`, mpc_upload_audio,
compiled with `FILL_TIME = 0`) -/

/-- Events of an upload run: `sendData counted` is a `Data` payload handed
to `client.send` (`counted` = followed by `++tCount`), `sendTag` a `Tag`
payload, and `ack n` a successful `rev_check(n)` — a received `Command`
frame carrying a `DataStack` or `DataTag` header whose value parses to
`n`. -/
inductive UploadEv
  | sendData (counted : Bool)
  | sendTag
  | ack (n : Nat)
  deriving Repr, DecidableEq

/-- The `while (!wav->is_empty())` loop of one source: each entry of
`reads` is the byte count returned by one `wav->read` call (0 = empty
`tmp`, breaking the loop); the buffer is flushed as a counted `Data` send
followed by its `rev_check` whenever it reaches `get1secSize()`. -/
def wavLoop (oneSec : Nat) : List Nat → Nat → Nat → List UploadEv × Nat × Nat
  | [], n, buf => ([], n, buf)
  | r :: rs, n, buf =>
    if r = 0 then ([], n, buf)
    else
      let buf1 := buf + r
      if oneSec ≤ buf1 then
        let q := wavLoop oneSec rs (n + 1) 0
        (UploadEv.sendData true :: UploadEv.ack (n + 1) :: q.1, q.2)
      else wavLoop oneSec rs n buf1

/-- One source: the read loop, the flush of a non-empty partial buffer
(one more counted send), then the title `Tag` send whose `rev_check` waits
for the current `tCount`. -/
def wavEvents (oneSec : Nat) (reads : List Nat) (n : Nat) : List UploadEv × Nat :=
  let q := wavLoop oneSec reads n 0
  let f : List UploadEv × Nat :=
    if q.2.2 ≠ 0 then
      (q.1 ++ [UploadEv.sendData true, UploadEv.ack (q.2.1 + 1)], q.2.1 + 1)
    else (q.1, q.2.1)
  (f.1 ++ [UploadEv.sendTag, UploadEv.ack f.2], f.2)

/-- All sources in the given order. -/
def wavsEvents (oneSec : Nat) : List (List Nat) → Nat → List UploadEv × Nat
  | [], n => ([], n)
  | reads :: rest, n =>
    let q := wavEvents oneSec reads n
    let r := wavsEvents oneSec rest q.2
    (q.1 ++ r.1, r.2)

/-- The whole `mpc_upload_audio` send/ack trace with `FILL_TIME = 0`: the
initial `Data` payload carrying only the `FormatID` (sent without
`rev_check` and without `++tCount`), the per-source traffic, the flush of
the DSD reassembler tail (`finalRest` = `rest.final` produced a non-empty
buffer), the loop sentinel tag when requested, and the quit sentinel
tag. -/
def uploadTrace (oneSec : Nat) (wavs : List (List Nat))
    (finalRest loopMode : Bool) : List UploadEv :=
  let q := wavsEvents oneSec wavs 0
  let f : List UploadEv × Nat :=
    if finalRest then
      (q.1 ++ [UploadEv.sendData true, UploadEv.ack (q.2 + 1)], q.2 + 1)
    else q
  let l := if loopMode then f.1 ++ [UploadEv.sendTag, UploadEv.ack f.2] else f.1
  UploadEv.sendData false :: (l ++ [UploadEv.sendTag, UploadEv.ack f.2])

def isCountedSend : UploadEv → Bool
  | UploadEv.sendData true => true
  | _ => false

def isSend : UploadEv → Bool
  | UploadEv.sendData _ => true
  | UploadEv.sendTag => true
  | UploadEv.ack _ => false

/-- Number of counted `Data` sends in a trace segment — the value of
`tCount` after it. -/
def countedSends (p : List UploadEv) : Nat :=
  (p.filter isCountedSend).length

/-- The shape of the ack-gated part of an upload trace from counter value
`n` to counter value `m`: a sequence of blocks, each either a counted
`Data` send immediately followed by the observation of the ack carrying
the incremented counter, or a `Tag` send immediately followed by the
observation of an ack carrying the unchanged counter. -/
inductive BlockSeq : Nat → List UploadEv → Nat → Prop
  | nil (n : Nat) : BlockSeq n [] n
  | data {n m : Nat} {t : List UploadEv} (h : BlockSeq (n + 1) t m) :
      BlockSeq n (UploadEv.sendData true :: UploadEv.ack (n + 1) :: t) m
  | tag {n m : Nat} {t : List UploadEv} (h : BlockSeq n t m) :
      BlockSeq n (UploadEv.sendTag :: UploadEv.ack n :: t) m

lemma blockSeq_append {n m k : Nat} {a b : List UploadEv}
    (ha : BlockSeq n a m) (hb : BlockSeq m b k) : BlockSeq n (a ++ b) k := by
  induction ha with
  | nil => exact hb
  | data _ ih => exact BlockSeq.data (ih hb)
  | tag _ ih => exact BlockSeq.tag (ih hb)

lemma countedSends_cons (e : UploadEv) (p : List UploadEv) :
    countedSends (e :: p) =
      (if isCountedSend e then 1 else 0) + countedSends p := by
  rw [countedSends, countedSends, List.filter_cons]
  by_cases h : isCountedSend e
  · simp [h]
    omega
  · simp [h]

lemma countedSends_append (p q : List UploadEv) :
    countedSends (p ++ q) = countedSends p + countedSends q := by
  simp [countedSends, List.filter_append]

lemma blockSeq_count {n m : Nat} {t : List UploadEv} (h : BlockSeq n t m) :
    m = n + countedSends t := by
  induction h with
  | nil => simp [countedSends]
  | data _ ih => rw [ih, countedSends_cons, countedSends_cons]; simp [isCountedSend]; omega
  | tag _ ih => rw [ih, countedSends_cons, countedSends_cons]; simp [isCountedSend]

lemma wavLoop_blocks (oneSec : Nat) (reads : List Nat) : ∀ (n buf : Nat),
    BlockSeq n (wavLoop oneSec reads n buf).1 (wavLoop oneSec reads n buf).2.1 := by
  induction reads with
  | nil => intro n buf; exact BlockSeq.nil n
  | cons r rs ih =>
    intro n buf
    rw [wavLoop]
    by_cases h0 : r = 0
    · rw [if_pos h0]; exact BlockSeq.nil n
    · rw [if_neg h0]
      by_cases hfill : oneSec ≤ buf + r
      · simp only [if_pos hfill]
        exact BlockSeq.data (ih (n + 1) 0)
      · simp only [if_neg hfill]
        exact ih n (buf + r)

lemma wavEvents_blocks (oneSec : Nat) (reads : List Nat) (n : Nat) :
    BlockSeq n (wavEvents oneSec reads n).1 (wavEvents oneSec reads n).2 := by
  rw [wavEvents]
  have hloop := wavLoop_blocks oneSec reads n 0
  by_cases hf : (wavLoop oneSec reads n 0).2.2 ≠ 0
  · simp only [if_pos hf]
    rw [List.append_assoc]
    exact blockSeq_append hloop
      (blockSeq_append (BlockSeq.data (BlockSeq.nil _)) (BlockSeq.tag (BlockSeq.nil _)))
  · simp only [if_neg hf]
    exact blockSeq_append hloop (BlockSeq.tag (BlockSeq.nil _))

lemma wavsEvents_blocks (oneSec : Nat) (wavs : List (List Nat)) : ∀ n : Nat,
    BlockSeq n (wavsEvents oneSec wavs n).1 (wavsEvents oneSec wavs n).2 := by
  induction wavs with
  | nil => intro n; exact BlockSeq.nil n
  | cons reads rest ih =>
    intro n
    rw [wavsEvents]
    exact blockSeq_append (wavEvents_blocks oneSec reads n) (ih _)

lemma uploadTrace_blocks (oneSec : Nat) (wavs : List (List Nat))
    (finalRest loopMode : Bool) :
    ∃ m rest, uploadTrace oneSec wavs finalRest loopMode =
      UploadEv.sendData false :: rest ∧ BlockSeq 0 rest m := by
  rw [uploadTrace]
  have hw := wavsEvents_blocks oneSec wavs 0
  set q := wavsEvents oneSec wavs 0 with hq
  have hfr : ∀ f : List UploadEv × Nat,
      (f = if finalRest then
        (q.1 ++ [UploadEv.sendData true, UploadEv.ack (q.2 + 1)], q.2 + 1)
      else q) → BlockSeq 0 f.1 f.2 := by
    intro f hf
    by_cases h : finalRest
    · rw [if_pos h] at hf
      rw [hf]
      exact blockSeq_append hw (BlockSeq.data (BlockSeq.nil _))
    · rw [if_neg h] at hf
      rw [hf]
      exact hw
  set f := if finalRest then
      (q.1 ++ [UploadEv.sendData true, UploadEv.ack (q.2 + 1)], q.2 + 1)
    else q with hfdef
  have hf := hfr f hfdef
  by_cases hl : loopMode
  · simp only [if_pos hl]
    refine ⟨f.2, _, rfl, ?_⟩
    rw [List.append_assoc]
    exact blockSeq_append hf
      (blockSeq_append (BlockSeq.tag (BlockSeq.nil _)) (BlockSeq.tag (BlockSeq.nil _)))
  · simp only [if_neg hl]
    exact ⟨f.2, _, rfl, blockSeq_append hf (BlockSeq.tag (BlockSeq.nil _))⟩

lemma blockSeq_prefix_acks {n m : Nat} {t : List UploadEv} (h : BlockSeq n t m) :
    ∀ p e q, t = p ++ e :: q → isSend e = true →
    ∀ a, (UploadEv.ack a ∈ p → (n < a ∧ a ≤ n + countedSends p) ∨ a = n) ∧
      (n < a → a ≤ n + countedSends p → UploadEv.ack a ∈ p) := by
  induction h with
  | nil =>
    intro p e q hpq _ a
    exact absurd hpq (by simp)
  | @data n1 m1 t1 h ih =>
    intro p e q hpq hsend a
    cases p with
    | nil =>
      refine ⟨fun hmem => absurd hmem (List.not_mem_nil _), fun h1 h2 => ?_⟩
      rw [countedSends] at h2
      simp at h2
      omega
    | cons x p1 =>
      rw [List.cons_append] at hpq
      injection hpq with hx hrest
      cases p1 with
      | nil =>
        rw [List.nil_append] at hrest
        injection hrest with he _
        rw [← he] at hsend
        exact absurd hsend (by simp [isSend])
      | cons y p2 =>
        rw [List.cons_append] at hrest
        injection hrest with hy hrest2
        subst hx hy
        obtain ⟨fw, bw⟩ := ih p2 e q hrest2 hsend a
        have hcnt : countedSends
            (UploadEv.sendData true :: UploadEv.ack (n1 + 1) :: p2) =
            1 + countedSends p2 := by
          rw [countedSends_cons, countedSends_cons]
          simp [isCountedSend]
        rw [hcnt]
        constructor
        · intro hmem
          simp only [List.mem_cons] at hmem
          rcases hmem with h1 | h1 | h1
          · exact absurd h1 (by simp)
          · left
            have ha : a = n1 + 1 := by injection h1
            omega
          · rcases fw h1 with ⟨hlt, hle⟩ | heq
            · left
              omega
            · left
              omega
        · intro h1 h2
          by_cases ha : a = n1 + 1
          · rw [ha]
            simp
          · have hmem := bw (by omega) (by omega)
            simp [hmem]
  | @tag n1 m1 t1 h ih =>
    intro p e q hpq hsend a
    cases p with
    | nil =>
      refine ⟨fun hmem => absurd hmem (List.not_mem_nil _), fun h1 h2 => ?_⟩
      rw [countedSends] at h2
      simp at h2
      omega
    | cons x p1 =>
      rw [List.cons_append] at hpq
      injection hpq with hx hrest
      cases p1 with
      | nil =>
        rw [List.nil_append] at hrest
        injection hrest with he _
        rw [← he] at hsend
        exact absurd hsend (by simp [isSend])
      | cons y p2 =>
        rw [List.cons_append] at hrest
        injection hrest with hy hrest2
        subst hx hy
        obtain ⟨fw, bw⟩ := ih p2 e q hrest2 hsend a
        have hcnt : countedSends (UploadEv.sendTag :: UploadEv.ack n1 :: p2) =
            countedSends p2 := by
          rw [countedSends_cons, countedSends_cons]
          simp [isCountedSend]
        rw [hcnt]
        constructor
        · intro hmem
          simp only [List.mem_cons] at hmem
          rcases hmem with h1 | h1 | h1
          · exact absurd h1 (by simp)
          · right
            injection h1
          · rcases fw h1 with ⟨hlt, hle⟩ | heq
            · left
              omega
            · right
              exact heq
        · intro h1 h2
          have hmem := bw h1 h2
          simp [hmem]

lemma blockSeq_data_num {n m : Nat} {t : List UploadEv} (h : BlockSeq n t m) :
    ∀ p a q, t = p ++ UploadEv.sendData true :: UploadEv.ack a :: q →
      a = n + countedSends p + 1 := by
  induction h with
  | nil =>
    intro p a q hpq
    exact absurd hpq (by simp)
  | data h ih =>
    intro p a q hpq
    cases p with
    | nil =>
      rw [List.nil_append] at hpq
      injection hpq with _ hrest
      injection hrest with hy _
      injection hy with ha
      rw [← ha, countedSends]
      simp
    | cons x p1 =>
      rw [List.cons_append] at hpq
      injection hpq with hx hrest
      cases p1 with
      | nil =>
        rw [List.nil_append] at hrest
        injection hrest with he _
        exact absurd he (by simp)
      | cons y p2 =>
        rw [List.cons_append] at hrest
        injection hrest with hy hrest2
        subst hx hy
        have := ih p2 a q hrest2
        rw [countedSends_cons, countedSends_cons]
        simp only [isCountedSend]
        simp
        omega
  | tag h ih =>
    intro p a q hpq
    cases p with
    | nil =>
      rw [List.nil_append] at hpq
      injection hpq with he _
      exact absurd he (by simp)
    | cons x p1 =>
      rw [List.cons_append] at hpq
      injection hpq with hx hrest
      cases p1 with
      | nil =>
        rw [List.nil_append] at hrest
        injection hrest with he _
        exact absurd he (by simp)
      | cons y p2 =>
        rw [List.cons_append] at hrest
        injection hrest with hy hrest2
        subst hx hy
        have := ih p2 a q hrest2
        rw [countedSends_cons, countedSends_cons]
        simp only [isCountedSend]
        simp
        omega

lemma blockSeq_tag_num {n m : Nat} {t : List UploadEv} (h : BlockSeq n t m) :
    ∀ p a q, t = p ++ UploadEv.sendTag :: UploadEv.ack a :: q →
      a = n + countedSends p := by
  induction h with
  | nil =>
    intro p a q hpq
    exact absurd hpq (by simp)
  | data h ih =>
    intro p a q hpq
    cases p with
    | nil =>
      rw [List.nil_append] at hpq
      injection hpq with he _
      exact absurd he (by simp)
    | cons x p1 =>
      rw [List.cons_append] at hpq
      injection hpq with hx hrest
      cases p1 with
      | nil =>
        rw [List.nil_append] at hrest
        injection hrest with he _
        exact absurd he (by simp)
      | cons y p2 =>
        rw [List.cons_append] at hrest
        injection hrest with hy hrest2
        subst hx hy
        have := ih p2 a q hrest2
        rw [countedSends_cons, countedSends_cons]
        simp only [isCountedSend]
        simp
        omega
  | tag h ih =>
    intro p a q hpq
    cases p with
    | nil =>
      rw [List.nil_append] at hpq
      injection hpq with _ hrest
      injection hrest with hy _
      injection hy with ha
      rw [← ha, countedSends]
      simp
    | cons x p1 =>
      rw [List.cons_append] at hpq
      injection hpq with hx hrest
      cases p1 with
      | nil =>
        rw [List.nil_append] at hrest
        injection hrest with he _
        exact absurd he (by simp)
      | cons y p2 =>
        rw [List.cons_append] at hrest
        injection hrest with hy hrest2
        subst hx hy
        have := ih p2 a q hrest2
        rw [countedSends_cons, countedSends_cons]
        simp only [isCountedSend]
        simp
        omega

/-- C2: in the `mpc_upload_audio` trace (`FILL_TIME = 0`), the first event
is the uncounted `Data` send carrying only the `FormatID`, unpreceded by
any ack wait; just before every send the set of ack values `≥ 1` observed
is exactly `{1, …, tCount}` — in particular counted chunk `N+1` is only
sent after ack `N` was observed and counted sends equal matching acks at
every point between sends; each counted send is numbered `tCount + 1` and
awaits exactly that value; a `Tag` send does not advance the counter and
awaits the current counter value. -/
theorem upload_ack_gating (oneSec : Nat) (wavs : List (List Nat))
    (finalRest loopMode : Bool) :
    ((uploadTrace oneSec wavs finalRest loopMode).head? =
      some (UploadEv.sendData false)) ∧
    (∀ p e q, uploadTrace oneSec wavs finalRest loopMode = p ++ e :: q →
      isSend e = true → ∀ a, 1 ≤ a →
      (UploadEv.ack a ∈ p ↔ a ≤ countedSends p)) ∧
    (∀ p a q, uploadTrace oneSec wavs finalRest loopMode =
        p ++ UploadEv.sendData true :: UploadEv.ack a :: q →
      a = countedSends p + 1) ∧
    (∀ p a q, uploadTrace oneSec wavs finalRest loopMode =
        p ++ UploadEv.sendTag :: UploadEv.ack a :: q →
      a = countedSends p) ∧
    (∀ p a q, uploadTrace oneSec wavs finalRest loopMode =
        p ++ UploadEv.sendData true :: UploadEv.ack a :: q →
      1 ≤ countedSends p → UploadEv.ack (countedSends p) ∈ p) := by
  obtain ⟨m, rest, heq, hblocks⟩ := uploadTrace_blocks oneSec wavs finalRest loopMode
  have hacks : ∀ p e q, uploadTrace oneSec wavs finalRest loopMode = p ++ e :: q →
      isSend e = true → ∀ a, 1 ≤ a →
      (UploadEv.ack a ∈ p ↔ a ≤ countedSends p) := by
    intro p e q hpq hsend a ha
    rw [heq] at hpq
    cases p with
    | nil =>
      rw [countedSends]
      simp
      omega
    | cons x p1 =>
      rw [List.cons_append] at hpq
      injection hpq with hx hrest
      subst hx
      obtain ⟨fw, bw⟩ := blockSeq_prefix_acks hblocks p1 e q hrest hsend a
      have hcnt : countedSends (UploadEv.sendData false :: p1) = countedSends p1 := by
        rw [countedSends_cons]
        simp [isCountedSend]
      rw [hcnt]
      constructor
      · intro hmem
        simp only [List.mem_cons] at hmem
        rcases hmem with h1 | h1
        · exact absurd h1 (by simp)
        · rcases fw h1 with ⟨_, hle⟩ | h0
          · omega
          · omega
      · intro hle
        have hmem := bw (by omega) (by omega)
        simp [hmem]
  refine ⟨by rw [heq]; rfl, hacks, ?_, ?_, ?_⟩
  · intro p a q hpq
    rw [heq] at hpq
    cases p with
    | nil =>
      rw [List.nil_append] at hpq
      injection hpq with he _
      injection he with hb
      exact absurd hb (by simp)
    | cons x p1 =>
      rw [List.cons_append] at hpq
      injection hpq with hx hrest
      subst hx
      have := blockSeq_data_num hblocks p1 a q hrest
      rw [countedSends_cons]
      simp only [isCountedSend]
      simp
      omega
  · intro p a q hpq
    rw [heq] at hpq
    cases p with
    | nil =>
      rw [List.nil_append] at hpq
      injection hpq with he _
      exact absurd he (by simp)
    | cons x p1 =>
      rw [List.cons_append] at hpq
      injection hpq with hx hrest
      subst hx
      have := blockSeq_tag_num hblocks p1 a q hrest
      rw [countedSends_cons]
      simp only [isCountedSend]
      simp
      omega
  · intro p a q hpq hpos
    exact (hacks p (UploadEv.sendData true) (UploadEv.ack a :: q) hpq rfl
      (countedSends p) hpos).2 (le_refl _)

/-- C2 witness: in the concrete upload of two sources (one whole chunk,
one partial chunk) with a reassembler tail, the second counted send is
preceded by exactly ack 1, and it is numbered `tCount + 1 = 2`. -/
theorem upload_ack_gating_witness :
    (UploadEv.ack 1 ∈
        [UploadEv.sendData false, UploadEv.sendData true, UploadEv.ack 1,
          UploadEv.sendTag, UploadEv.ack 1] ↔
      1 ≤ countedSends
        [UploadEv.sendData false, UploadEv.sendData true, UploadEv.ack 1,
          UploadEv.sendTag, UploadEv.ack 1]) ∧
    (2 : Nat) = countedSends
        [UploadEv.sendData false, UploadEv.sendData true, UploadEv.ack 1,
          UploadEv.sendTag, UploadEv.ack 1] + 1 := by
  have h := upload_ack_gating 4 [[4], [2]] true false
  refine ⟨h.2.1
    [UploadEv.sendData false, UploadEv.sendData true, UploadEv.ack 1,
      UploadEv.sendTag, UploadEv.ack 1]
    (UploadEv.sendData true)
    [UploadEv.ack 2, UploadEv.sendTag, UploadEv.ack 2, UploadEv.sendData true,
      UploadEv.ack 3, UploadEv.sendTag, UploadEv.ack 3]
    (by decide) rfl 1 (by decide),
    h.2.2.1
    [UploadEv.sendData false, UploadEv.sendData true, UploadEv.ack 1,
      UploadEv.sendTag, UploadEv.ack 1] 2
    [UploadEv.sendTag, UploadEv.ack 2, UploadEv.sendData true,
      UploadEv.ack 3, UploadEv.sendTag, UploadEv.ack 3]
    (by decide)⟩

end MPC
